import Mathlib

/-!
Verification of the OxyGent orchestration core against its specification.

The development shallowly embeds the parts of the repository that the
claims are about:

* the LLM-output parser `func_parse_llm_response` from
  `examples/advanced/a2a_demo.py` and `examples/advanced/attachment_demo.py`
  (identical in both files), over a model of Python strings as lists of
  characters;
* the `ParallelFlow._execute` body and the `PlanAndSolve` configuration
  fields and executing-loop sketch that appear verbatim inside
  `fumadocs_generator.py`;
* the Router, Context/lineage and entry-point components, whose code is
  not part of the source tree; these are modelled from the specification
  (sections 3, 4.1, 4.2, 4.5 and 6) and each such definition says so in
  its doc comment.

Python strings are modelled as `List Char`; the helper functions below
mirror the Python primitives used by the source (`in`, `split`, `strip`).
-/

namespace OxyGent

/-- The character list underlying a Lean string literal; used to write
concrete Python strings in the model. -/
def pyChars (s : String) : List Char := s.data

/-- Python whitespace test used by `str.strip` (ASCII part, which is all
the source ever strips). -/
def pyWs (c : Char) : Bool :=
  c == ' ' || c == '\t' || c == '\n' || c == '\r' || c == '\x0b' || c == '\x0c'

/-- Does `p` occur at the very front of `t`?  Mirrors Python
`t.startswith(p)`. -/
def startsWithL : List Char → List Char → Bool
  | [], _ => true
  | _ :: _, [] => false
  | p :: ps, t :: ts => p == t && startsWithL ps ts

/-- Substring containment, mirroring the Python expression `p in t`. -/
def containsSub (pat : List Char) : List Char → Bool
  | [] => startsWithL pat []
  | c :: rest => startsWithL pat (c :: rest) || containsSub pat rest

/-- Fuel-driven worker for `splitSegs`; the fuel is always at least the
length of the text plus one, so the zero case is unreachable. -/
def splitSegsF (pat : List Char) : Nat → List Char → List (List Char)
  | 0, text => [text]
  | fuel + 1, text =>
    match text with
    | [] => [[]]
    | c :: rest =>
      if startsWithL pat (c :: rest) && !pat.isEmpty then
        [] :: splitSegsF pat fuel ((c :: rest).drop pat.length)
      else
        match splitSegsF pat fuel rest with
        | [] => [[c]]
        | s :: ss => (c :: s) :: ss

/-- Greedy left-to-right split on a separator, mirroring Python
`text.split(pat)` for a non-empty separator. -/
def splitSegs (pat text : List Char) : List (List Char) :=
  splitSegsF pat (text.length + 1) text

/-- Python `str.strip()`: drop whitespace from both ends. -/
def trimL (l : List Char) : List Char :=
  ((l.dropWhile pyWs).reverse.dropWhile pyWs).reverse

/-!
### The LLM-response parser (`func_parse_llm_response`)

Translated from `examples/advanced/a2a_demo.py` lines 17-44 (the copy in
`examples/advanced/attachment_demo.py` lines 11-38 is character for
character the same function).  The helpers `extract_first_json` and
`json.loads` live outside the source tree, so their composition is an
oracle parameter `decode`; the outcome `jsonDecodeError` is the Python
`json.JSONDecodeError` branch and `otherExn` is the final
`except Exception` branch.
-/

/-- The marker `</think>` stripped by the parser. -/
def thinkTagL : List Char := pyChars "</think>"

/-- States of `LLMState` used by the parser (`oxygent/schemas`). -/
inductive LLMState where
  | ANSWER
  | TOOL_CALL
  | ERROR_PARSE
deriving DecidableEq, Repr

/-- A decoded JSON object: keys paired with opaque value payloads. -/
abbrev JsonObj := List (String × String)

/-- Outcome of `json.loads(extract_first_json(text))`, the two helpers
that are external to the source tree. -/
inductive DecodeOutcome where
  | ok (obj : JsonObj)
  | jsonDecodeError
  | otherExn (msg : String)

/-- The `output` field of an `LLMResponse`: free text, a decoded tool-call
object, or a caught exception value. -/
inductive LLMOutput where
  | text (s : List Char)
  | obj (o : JsonObj)
  | exn (msg : String)
deriving DecidableEq, Repr

/-- The `LLMResponse` schema fields the parser fills in. -/
structure LLMResponse where
  state : LLMState
  output : LLMOutput
  ori_response : List Char
deriving DecidableEq, Repr

/-- Python `"tool_name" in tool_call_dict`: key membership. -/
def hasToolName (o : JsonObj) : Bool := o.any (fun p => p.1 == "tool_name")

/-- The reassignment `ori_response = ori_response.split("</think>")[-1].strip()`
guarded by `if "</think>" in ori_response`. -/
def postThink (ori : List Char) : List Char :=
  if containsSub thinkTagL ori then trimL ((splitSegs thinkTagL ori).getLastD [])
  else ori

/-- The four tokens of the fallback check
`all(tk in ori_response for tk in ["tool_name", "arguments", "\x7b", "\x7d"])`. -/
def parseTokens : List (List Char) :=
  [pyChars "tool_name", pyChars "arguments", pyChars "\x7b", pyChars "\x7d"]

/-- The fixed ERROR_PARSE message of the JSONDecodeError branch. -/
def cannotParseMsg : List Char :=
  pyChars "can not parse json, please regenerate the answer."

/-- `func_parse_llm_response` from `examples/advanced/a2a_demo.py` lines
17-44, parametric in the external `decode` oracle.  Every Python branch
returns an `LLMResponse`, so the embedding is a total function. -/
def func_parse_llm_response (decode : List Char → DecodeOutcome)
    (ori0 : List Char) : LLMResponse :=
  let ori := postThink ori0
  match decode ori with
  | .ok obj =>
    if hasToolName obj then ⟨.TOOL_CALL, .obj obj, ori⟩
    else ⟨.ANSWER, .text ori, ori⟩
  | .jsonDecodeError =>
    if parseTokens.all (fun tk => containsSub tk ori) then
      ⟨.ERROR_PARSE, .text cannotParseMsg, ori⟩
    else ⟨.ANSWER, .text ori, ori⟩
  | .otherExn e => ⟨.ERROR_PARSE, .exn e, ori⟩

/-!
### Registry and Router

The Router itself is not part of the source tree (only its callers are,
for instance `oxy_request.call` in the example workflows), so the
definitions of this section are modelled from the specification,
section 4.2.
-/

/-- Response/flow states (`OxyState` enum as documented in
`fumadocs_generator.py`, flows index section). -/
inductive OxyState where
  | PENDING
  | IN_PROGRESS
  | COMPLETED
  | FAILED
deriving DecidableEq, Repr

/-- Modelled from the spec: the error taxonomy of section 7.
`NestedFailure` preserves the original kind and message of the wrapped
unit-level failure. -/
inductive ErrKind where
  | UnknownUnit
  | PermissionDenied
  | ParseFailure
  | RoundsExceeded
  | NestedFailure (origKind : String) (origMsg : String)
  | Timeout
deriving DecidableEq, Repr

/-- Key/value payloads (arguments, data bags). -/
abbrev Store := List (String × String)

/-- A Response: terminal/error state, the taxonomy kind when the state is
an error, and an output value. -/
structure OxyResponse where
  state : OxyState
  error : Option ErrKind := none
  output : String
deriving DecidableEq, Repr

/-- An exception raised by a unit: its kind (exception class) and
message. -/
structure ExnInfo where
  kind : String
  msg : String
deriving DecidableEq, Repr

/-- Outcome of invoking the execute contract of a unit: a Response, or a
raised exception. -/
inductive ExecOutcome where
  | ok (resp : OxyResponse)
  | raised (e : ExnInfo)

/-- Modelled from the spec: a callable unit — unique name, the
`permitted_callees` list enforced by the Router, and the execute
contract. -/
structure OxyUnit where
  name : String
  permitted_callees : List String := []
  execute : Store → ExecOutcome

/-- Registry lookup by unique unit name. -/
def lookupUnit (reg : List OxyUnit) (nm : String) : Option OxyUnit :=
  reg.find? (fun u => u.name == nm)

/-- Step (4) of the Router algorithm: invoke the execute contract of the
unit and wrap a raised exception into an Error-state Response carrying
the original kind and message as a `NestedFailure`.  Modelled from the
spec, sections 4.2 and 7. -/
def wrapExec (callee : OxyUnit) (args : Store) : OxyResponse :=
  match callee.execute args with
  | .ok resp => resp
  | .raised e => ⟨.FAILED, some (.NestedFailure e.kind e.msg), e.msg⟩

/-- Resolution plus invocation, without the permission gate: steps (1)
and (4) of the Router algorithm. -/
def routerDispatch (reg : List OxyUnit) (calleeName : String)
    (args : Store) : OxyResponse :=
  match lookupUnit reg calleeName with
  | none => ⟨.FAILED, some .UnknownUnit, "unknown unit: " ++ calleeName⟩
  | some callee => wrapExec callee args

/-- Modelled from the spec: `Router.call` (section 4.2).  (1) resolve the
callee in the Registry, `UnknownUnit` if absent; (2) if the caller
declares a non-empty `permitted_callees` and the callee is not in it,
`PermissionDenied`; (4) invoke the unit, wrapping any raised exception
(`wrapExec`).  The return type is `OxyResponse`, never an exception:
the Router does not let a unit-level exception escape its boundary. -/
def routerCall (reg : List OxyUnit) (caller : OxyUnit) (calleeName : String)
    (args : Store) : OxyResponse :=
  match lookupUnit reg calleeName with
  | none => ⟨.FAILED, some .UnknownUnit, "unknown unit: " ++ calleeName⟩
  | some callee =>
    if caller.permitted_callees ≠ [] ∧ calleeName ∉ caller.permitted_callees then
      ⟨.FAILED, some .PermissionDenied, "permission denied: " ++ calleeName⟩
    else
      wrapExec callee args

/-!
### Concurrent fan-out (`ParallelFlow._execute`)

Translated from the implementation body shown verbatim in
`fumadocs_generator.py` lines 575-593: one nested call per name in
`permitted_tool_name_list`, all with `oxy_request.arguments`, gathered
with `asyncio.gather`, then aggregated into one Completed response.
The `asyncio.gather` join is modelled by a scheduler: each branch is one
atomic completion step; a schedule is the order in which the event loop
finishes branches; the aggregate exists only once every branch slot is
filled.
-/

/-- The explanation line of the aggregate (concatenated directly with the
joined branch outputs, exactly as in the source). -/
def aggHeader : String := "The following are the results from multiple executions:"

/-- Python `sep.join(l)`. -/
def joinSep (sep : String) : List String → String
  | [] => ""
  | [s] => s
  | s :: t :: rest => s ++ sep ++ joinSep sep (t :: rest)

/-- The state of one `asyncio.gather` run: the log of nested calls issued
so far (callee name and arguments, in execution order) and one result
slot per branch. -/
structure GatherRun where
  log : List (String × Store)
  slots : List (Option OxyResponse)

/-- The nested call of branch `i`:
`oxy_request.call(callee=permitted_tool_name_list[i], arguments=oxy_request.arguments)`. -/
def branchCall (call : String → Store → OxyResponse) (names : List String)
    (args : Store) (i : Nat) : OxyResponse :=
  call (names.getD i "") args

/-- One scheduler step: branch `i` runs its nested call to completion. -/
def gatherStep (call : String → Store → OxyResponse) (names : List String)
    (args : Store) (st : GatherRun) (i : Nat) : GatherRun :=
  { log := st.log ++ [(names.getD i "", args)]
    slots := st.slots.set i (some (branchCall call names args i)) }

/-- Run the gather under a schedule (the order in which the event loop
completes branches). -/
def runGather (call : String → Store → OxyResponse) (names : List String)
    (args : Store) (sched : List Nat) : GatherRun :=
  sched.foldl (gatherStep call names args) ⟨[], List.replicate names.length none⟩

/-- The join barrier of `asyncio.gather`: the list of responses exists
only when every branch slot is filled. -/
def collectAll : List (Option OxyResponse) → Option (List OxyResponse)
  | [] => some []
  | none :: _ => none
  | some r :: rest => (collectAll rest).map (fun l => r :: l)

/-- `ParallelFlow._execute` from `fumadocs_generator.py` lines 575-593,
under a given completion schedule: once all branches have finished, the
aggregate is the explanation line followed by the newline-join of the
branch outputs in declaration order; while some branch is unfinished the
gather has not joined and no response exists (`none`). -/
def parallelFlowExecute (call : String → Store → OxyResponse)
    (names : List String) (args : Store) (sched : List Nat) :
    Option OxyResponse :=
  match collectAll (runGather call names args sched).slots with
  | some resps =>
    some ⟨.COMPLETED, none,
      aggHeader ++ joinSep "\n" (resps.map OxyResponse.output)⟩
  | none => none

/-!
### Plan-Execute-Replan (`PlanAndSolve`)

The configuration fields below are the class fields shown verbatim in
`fumadocs_generator.py` lines 720-728, and the executing loop body
(task text format and history accumulation) is the loop shown at lines
813-821.  The surrounding state machine — Planning, the round counter
against `max_replan_rounds`, the Replanning decision and the forced
`RoundsExceeded` failure — is not part of the source tree and is
modelled from the specification, section 4.5.
-/

/-- The `PlanAndSolve` configuration fields, with the defaults of
`fumadocs_generator.py` lines 720-728. -/
structure PlanAndSolveCfg where
  max_replan_rounds : Nat := 30
  planner_agent_name : String := "planner_agent"
  pre_plan_steps : Option (List String) := none
  enable_replanner : Bool := false
  executor_agent_name : String := "executor_agent"
  llm_model : String := "default_llm"

/-- The explicit only-this-step instruction line of the executor task
text. -/
def onlyCurrentStepInstr : String :=
  "You should only execute the current step, and do not execute other steps."

/-- The task text delegated to the executor for one step
(`task_formatted`, `fumadocs_generator.py` lines 814-818; the incidental
doc indentation of the Python triple-quoted literal is dropped). -/
def taskFormat (past_steps step : String) : String :=
  "We have finished the following steps: " ++ past_steps
    ++ "\nThe current step to execute is: " ++ step
    ++ "\n" ++ onlyCurrentStepInstr

/-- The history entry appended after one executor call
(`past_steps += f"task: ..., result: ..."`, line 821). -/
def pastEntry (step result : String) : String :=
  "task: " ++ step ++ ", result: " ++ result

/-- State threaded through the executing loop: accumulated history text,
the last executor output, and the task texts issued so far in call
order. -/
structure ExecPhase where
  past : String
  lastOut : String
  tasks : List String
deriving DecidableEq, Repr

/-- The executing loop of `fumadocs_generator.py` lines 813-821: for each
step in order, format the task from the history so far, call the
executor, append the step and its result to the history. -/
def execStepsGo (executor : String → String) :
    List String → ExecPhase → ExecPhase
  | [], st => st
  | step :: rest, st =>
    let t := taskFormat st.past step
    let out := executor t
    execStepsGo executor rest
      ⟨st.past ++ pastEntry step out, out, st.tasks ++ [t]⟩

/-- Structured output of the replanner unit: either a final answer or a
revised step list.  Modelled from the spec, section 4.5. -/
inductive ReplanDecision where
  | finalAnswer (a : String)
  | revisedSteps (steps : List String)

/-- Terminal outcome of the flow. -/
inductive PesOutcome where
  | done (answer : String)
  | failed (kind : ErrKind) (msg : String)
deriving DecidableEq, Repr

/-- A finished Plan-Execute-Replan run: the outcome, how many
plan/replan rounds were executed, and the executor task log. -/
structure PesRun where
  outcome : PesOutcome
  roundsDone : Nat
  tasks : List String
deriving DecidableEq, Repr

/-- Modelled from the spec (section 4.5): the round loop.  One round
executes the current step list; with replanning disabled the flow is
then Done with the last executor output; with replanning enabled the
replanner (given the round index and the history) either produces a
final answer (Done) or a revised step list, in which case a further
round runs if the configured bound still allows one, and otherwise the
flow is forced into Failed with a `RoundsExceeded`
"max rounds exceeded" error.  `remaining` counts the rounds the bound
still allows beyond the current one, so the recursion is structural and
the loop terminates for every replanner behaviour. -/
def pesRounds (executor : String → String)
    (replanner : Nat → String → ReplanDecision) (enable : Bool) :
    Nat → Nat → List String → ExecPhase → PesRun
  | remaining, roundIdx, steps, ph =>
    let ph2 := execStepsGo executor steps ph
    if enable then
      match replanner roundIdx ph2.past with
      | .finalAnswer a => ⟨.done a, roundIdx, ph2.tasks⟩
      | .revisedSteps l =>
        match remaining with
        | 0 => ⟨.failed .RoundsExceeded "max rounds exceeded", roundIdx, ph2.tasks⟩
        | rem + 1 => pesRounds executor replanner enable rem (roundIdx + 1) l ph2
    else ⟨.done ph2.lastOut, roundIdx, ph2.tasks⟩

/-- Planning phase: a caller-supplied fixed step list, or the structured
parse of the planner output (`none` is a parse failure).  Modelled from
the spec, section 4.5. -/
def planPhase (cfg : PlanAndSolveCfg) (planner : String → Option (List String))
    (query : String) : Option (List String) :=
  match cfg.pre_plan_steps with
  | some l => some l
  | none => planner query

/-- Modelled from the spec (section 4.5): the whole flow.  Planning
parse failure is fatal; otherwise the round loop starts at round 1 with
`max_replan_rounds - 1` further rounds allowed. -/
def planAndSolveRun (cfg : PlanAndSolveCfg)
    (planner : String → Option (List String)) (executor : String → String)
    (replanner : Nat → String → ReplanDecision) (query : String) : PesRun :=
  match planPhase cfg planner query with
  | none => ⟨.failed .ParseFailure "planner output parse failure", 0, []⟩
  | some steps =>
    pesRounds executor replanner cfg.enable_replanner
      (cfg.max_replan_rounds - 1) 1 steps ⟨"", "", []⟩

/-!
### Context, lineage and the external entry point

The Context class and the `MAS.chat_with_agent` entry point are not part
of the source tree (only their callers are: `group_id_demo.py`,
`global_data_demo.py`, `request_id_demo.py`), so the definitions of this
section are modelled from the specification, sections 3, 4.1 and 6.
Shared-by-identity backing stores are modelled by keying the group data
bags by group id inside one heap owned by the runtime, so that two
contexts with the same group id read and write the same store.
-/

/-- Lookup in a key/value store (first binding wins; writes prepend). -/
def storeGet (st : Store) (k : String) : Option String :=
  (st.find? (fun p => p.1 == k)).map (fun p => p.2)

/-- Write to a key/value store. -/
def storeSet (st : Store) (k v : String) : Store := (k, v) :: st

/-- A request id: either the caller-supplied token, or one generated
from the runtime counter (generation is injective, so distinct counter
values give distinct ids). -/
inductive RequestId where
  | supplied (s : String)
  | generated (n : Nat)
deriving DecidableEq, Repr

/-- Modelled from the spec (section 3): the Context identity fields and
the per-hop argument payload.  The group and global data bags live in
the runtime heap, reached through `group_id`. -/
structure Ctx where
  request_id : RequestId
  trace_id : String
  group_id : String
  arguments : Store
deriving DecidableEq, Repr

/-- The runtime-owned heap of shared mutable stores: one group data bag
per group id, and the process-wide global data bag. -/
structure DataHeap where
  groupStores : List (String × Store) := []
  globalStore : Store := []
deriving DecidableEq, Repr

/-- The backing group store for a group id. -/
def groupStoreOf (h : DataHeap) (gid : String) : Store :=
  ((h.groupStores.find? (fun p => p.1 == gid)).map (fun p => p.2)).getD []

/-- Read a key of `group_data` through a context. -/
def readGroup (h : DataHeap) (c : Ctx) (k : String) : Option String :=
  storeGet (groupStoreOf h c.group_id) k

/-- Write a key of `group_data` through a context: the binding for that
group id is updated in place in the heap. -/
def writeGroup (h : DataHeap) (c : Ctx) (k v : String) : DataHeap :=
  { h with groupStores :=
      (c.group_id, storeSet (groupStoreOf h c.group_id) k v) :: h.groupStores }

/-- Read a key of `global_data` through a context (the store is
process-wide; the context only names the reader). -/
def readGlobal (h : DataHeap) (_c : Ctx) (k : String) : Option String :=
  storeGet h.globalStore k

/-- Write a key of `global_data` through a context. -/
def writeGlobal (h : DataHeap) (_c : Ctx) (k v : String) : DataHeap :=
  { h with globalStore := storeSet h.globalStore k v }

/-- Modelled from the spec (section 4.1): `derive_child` — same trace id
and group id (hence the same backing group and global stores in the
heap), a fresh request id, and the child's own argument payload. -/
def derive_child (c : Ctx) (args : Store) (freshReq : RequestId) : Ctx :=
  { request_id := freshReq, trace_id := c.trace_id,
    group_id := c.group_id, arguments := args }

/-- Runtime bookkeeping across external calls: the stored
trace-id-to-group-id bindings used by `inherit_from`, and the request id
generator counter. -/
structure MasState where
  traceGroup : List (String × String) := []
  nextId : Nat := 0
deriving DecidableEq, Repr

/-- An external entry-point payload (section 6). -/
structure Payload where
  query : String
  group_id : Option String := none
  from_trace_id : Option String := none
  request_id : Option String := none
deriving DecidableEq, Repr

/-- Modelled from the spec (sections 3, 4.1, 6): creation of the root
Context for one external call.  The request id is the supplied token
verbatim when present, else generated fresh from the counter.  The group
id is the explicit payload group id when present; else the stored group
id of `from_trace_id` (`inherit_from`); else the fresh trace id (an
unknown `from_trace_id` degrades gracefully to a fresh, ungrouped
context).  The returned state records the trace-to-group binding of this
call and advances the generator. -/
def createRootContext (st : MasState) (p : Payload) (freshTrace : String) :
    Ctx × MasState :=
  let rid : RequestId :=
    match p.request_id with
    | some r => .supplied r
    | none => .generated st.nextId
  let gid : String :=
    match p.group_id with
    | some g => g
    | none =>
      match p.from_trace_id.bind
          (fun t => (st.traceGroup.find? (fun q => q.1 == t)).map (fun q => q.2)) with
      | some g => g
      | none => freshTrace
  (⟨rid, freshTrace, gid, [("query", p.query)]⟩,
   ⟨(freshTrace, gid) :: st.traceGroup, st.nextId + 1⟩)

/-!
## Theorems

Helper lemmas first, then one theorem per claim (with a witness where the
theorem carries hypotheses).
-/

theorem startsWithL_self_append (p b : List Char) :
    startsWithL p (p ++ b) = true := by
  induction p with
  | nil => rfl
  | cons c cs ih => simp [startsWithL, ih]

theorem containsSub_pat_nil (t : List Char) : containsSub [] t = true := by
  cases t <;> simp [containsSub, startsWithL]

theorem containsSub_self_append (p b : List Char) :
    containsSub p (p ++ b) = true := by
  cases p with
  | nil => exact containsSub_pat_nil b
  | cons c cs =>
    have h := startsWithL_self_append (c :: cs) b
    simp only [List.cons_append] at h ⊢
    simp [containsSub, h]

theorem containsSub_append_left (a : List Char) {p t : List Char}
    (h : containsSub p t = true) : containsSub p (a ++ t) = true := by
  induction a with
  | nil => simpa using h
  | cons c cs ih => simp [containsSub, ih]

theorem containsSub_middle (a p b : List Char) :
    containsSub p (a ++ p ++ b) = true := by
  rw [List.append_assoc]
  exact containsSub_append_left a (containsSub_self_append p b)

theorem pyChars_append (s t : String) :
    pyChars (s ++ t) = pyChars s ++ pyChars t := rfl

theorem containsSub_str_mid (a p b : String) :
    containsSub (pyChars p) (pyChars (a ++ p ++ b)) = true := by
  rw [pyChars_append, pyChars_append]
  exact containsSub_middle (pyChars a) (pyChars p) (pyChars b)

theorem containsSub_str_end (a p : String) :
    containsSub (pyChars p) (pyChars (a ++ p)) = true := by
  rw [pyChars_append]
  have := containsSub_middle (pyChars a) (pyChars p) []
  simpa using this

theorem containsSub_self (p : List Char) : containsSub p p = true := by
  have := containsSub_self_append p []
  simpa using this

/-- One bound-lemma for the round loop: the number of executed rounds
never exceeds the current round index plus the rounds still allowed, for
every executor, replanner behaviour, step list and history. -/
theorem pesRounds_roundsDone_le (executor : String → String)
    (replanner : Nat → String → ReplanDecision) (enable : Bool) :
    ∀ (remaining roundIdx : Nat) (steps : List String) (ph : ExecPhase),
      (pesRounds executor replanner enable remaining roundIdx steps ph).roundsDone
        ≤ roundIdx + remaining := by
  intro remaining
  induction remaining with
  | zero =>
    intro roundIdx steps ph
    rw [pesRounds]
    cases enable with
    | false => simp
    | true =>
      cases replanner roundIdx (execStepsGo executor steps ph).past <;> simp
  | succ rem ih =>
    intro roundIdx steps ph
    rw [pesRounds]
    cases enable with
    | false => simp
    | true =>
      cases hr : replanner roundIdx (execStepsGo executor steps ph).past with
      | finalAnswer a => simp [hr]
      | revisedSteps l =>
        simp only [hr, if_true]
        have h := ih (roundIdx + 1) l (execStepsGo executor steps ph)
        omega

/-- C2.  For every Router dispatch, if the invoked unit's execute raises
an exception, `Router.call` returns an Error-state Response carrying the
original cause (kind and message wrapped as `NestedFailure`); the Router
is a total function into `OxyResponse`, so no exception ever propagates
past its boundary. -/
theorem C2_router_wraps_unit_exceptions
    (reg : List OxyUnit) (caller : OxyUnit) (calleeName : String)
    (args : Store) (callee : OxyUnit) (e : ExnInfo)
    (hlook : lookupUnit reg calleeName = some callee)
    (hperm : caller.permitted_callees = [] ∨ calleeName ∈ caller.permitted_callees)
    (hexec : callee.execute args = .raised e) :
    routerCall reg caller calleeName args
      = ⟨.FAILED, some (.NestedFailure e.kind e.msg), e.msg⟩ := by
  have hgate : ¬ (caller.permitted_callees ≠ [] ∧ calleeName ∉ caller.permitted_callees) := by
    rcases hperm with h | h
    · exact fun hc => hc.1 h
    · exact fun hc => hc.2 h
  simp [routerCall, hlook, hgate, wrapExec, hexec]

theorem C2_router_wraps_unit_exceptions_witness :
    routerCall [⟨"boom_tool", [], fun _ => .raised ⟨"ValueError", "division by zero"⟩⟩]
      ⟨"master", [], fun _ => .ok ⟨.COMPLETED, none, ""⟩⟩ "boom_tool" []
      = ⟨.FAILED, some (.NestedFailure "ValueError" "division by zero"),
         "division by zero"⟩ :=
  C2_router_wraps_unit_exceptions
    [⟨"boom_tool", [], fun _ => .raised ⟨"ValueError", "division by zero"⟩⟩]
    ⟨"master", [], fun _ => .ok ⟨.COMPLETED, none, ""⟩⟩ "boom_tool" []
    ⟨"boom_tool", [], fun _ => .raised ⟨"ValueError", "division by zero"⟩⟩
    ⟨"ValueError", "division by zero"⟩
    rfl (Or.inl rfl) rfl

/-- C3.  A caller with a non-empty `permitted_callees` routing to a
registered callee whose name is not in that list always gets the
`PermissionDenied` Error response (never a silent no-op, never a
successful call), while a caller with an empty/unset list bypasses the
permission gate entirely: its call is exactly resolution plus
invocation (`routerDispatch`) of any registered unit. -/
theorem C3_permission_denied :
    (∀ (reg : List OxyUnit) (caller : OxyUnit) (calleeName : String)
        (args : Store) (callee : OxyUnit),
      lookupUnit reg calleeName = some callee →
      caller.permitted_callees ≠ [] →
      calleeName ∉ caller.permitted_callees →
      routerCall reg caller calleeName args
        = ⟨.FAILED, some .PermissionDenied, "permission denied: " ++ calleeName⟩)
    ∧ (∀ (reg : List OxyUnit) (caller : OxyUnit) (calleeName : String)
        (args : Store),
      caller.permitted_callees = [] →
      routerCall reg caller calleeName args = routerDispatch reg calleeName args) := by
  constructor
  · intro reg caller calleeName args callee hlook hne hnot
    simp [routerCall, hlook, hne, hnot]
  · intro reg caller calleeName args hperm
    have hgate : ¬ (caller.permitted_callees ≠ [] ∧ calleeName ∉ caller.permitted_callees) :=
      fun hc => hc.1 hperm
    cases hlook : lookupUnit reg calleeName with
    | none => simp [routerCall, routerDispatch, hlook]
    | some callee => simp [routerCall, routerDispatch, hlook, hgate]

theorem C3_permission_denied_witness :
    (routerCall
        [⟨"tool_a", [], fun _ => .ok ⟨.COMPLETED, none, "ok"⟩⟩]
        ⟨"restricted_caller", ["tool_b"], fun _ => .ok ⟨.COMPLETED, none, ""⟩⟩
        "tool_a" []
      = ⟨.FAILED, some .PermissionDenied, "permission denied: " ++ "tool_a"⟩)
    ∧ (routerCall
        [⟨"tool_a", [], fun _ => .ok ⟨.COMPLETED, none, "ok"⟩⟩]
        ⟨"master", [], fun _ => .ok ⟨.COMPLETED, none, ""⟩⟩ "tool_a" []
      = routerDispatch [⟨"tool_a", [], fun _ => .ok ⟨.COMPLETED, none, "ok"⟩⟩]
          "tool_a" []) :=
  ⟨C3_permission_denied.1 _ _ _ _ _ rfl (by simp) (by simp),
   C3_permission_denied.2 _ _ _ _ rfl⟩

/-- C7.  A child derived by `derive_child` reads every key of
`group_data` and of `global_data` to the same value as its parent (the
backing stores are shared), its `arguments` are exactly its own payload;
a `group_data` write through one context is read back by any context
with the same group id, and a `global_data` write through one context is
read back by every context. -/
theorem C7_derive_child_shared_stores :
    (∀ (h : DataHeap) (c : Ctx) (args : Store) (fr : RequestId) (k : String),
      readGroup h (derive_child c args fr) k = readGroup h c k
      ∧ readGlobal h (derive_child c args fr) k = readGlobal h c k
      ∧ (derive_child c args fr).arguments = args)
    ∧ (∀ (h : DataHeap) (c1 c2 : Ctx) (k v : String),
      c2.group_id = c1.group_id →
      readGroup (writeGroup h c1 k v) c2 k = some v)
    ∧ (∀ (h : DataHeap) (c1 c2 : Ctx) (k v : String),
      readGlobal (writeGlobal h c1 k v) c2 k = some v) := by
  refine ⟨fun h c args fr k => ⟨rfl, rfl, rfl⟩, ?_, ?_⟩
  · intro h c1 c2 k v hgid
    simp [readGroup, writeGroup, groupStoreOf, storeGet, storeSet, hgid]
  · intro h c1 c2 k v
    simp [readGlobal, writeGlobal, storeGet, storeSet]

theorem C7_derive_child_shared_stores_witness :
    (readGroup ⟨[], []⟩
        (derive_child ⟨.generated 0, "t1", "g1", []⟩ [("query", "q")] (.generated 1)) "k"
      = readGroup ⟨[], []⟩ ⟨.generated 0, "t1", "g1", []⟩ "k")
    ∧ (readGroup
        (writeGroup ⟨[], []⟩ ⟨.generated 0, "t1", "g1", []⟩ "k" "v")
        ⟨.generated 2, "t2", "g1", []⟩ "k" = some "v")
    ∧ (readGlobal
        (writeGlobal ⟨[], []⟩ ⟨.generated 0, "t1", "g1", []⟩ "k" "v")
        ⟨.generated 2, "t2", "g2", []⟩ "k" = some "v") :=
  ⟨(C7_derive_child_shared_stores.1 _ _ _ _ _).1,
   C7_derive_child_shared_stores.2.1 _ _ _ _ _ rfl,
   C7_derive_child_shared_stores.2.2 _ _ _ _ _⟩

/-- C9.  The root Context of an external call uses a caller-supplied
`request_id` verbatim; without one it gets the freshly generated id of
the advancing counter, and two successive calls without supplied ids
get distinct request ids. -/
theorem C9_request_id_verbatim_or_fresh :
    (∀ (st : MasState) (p : Payload) (t r : String),
      p.request_id = some r →
      (createRootContext st p t).1.request_id = .supplied r)
    ∧ (∀ (st : MasState) (p : Payload) (t : String),
      p.request_id = none →
      (createRootContext st p t).1.request_id = .generated st.nextId)
    ∧ (∀ (st : MasState) (p p' : Payload) (t t' : String),
      p.request_id = none → p'.request_id = none →
      (createRootContext st p t).1.request_id
        ≠ (createRootContext (createRootContext st p t).2 p' t').1.request_id) := by
  refine ⟨?_, ?_, ?_⟩
  · intro st p t r hr
    simp [createRootContext, hr]
  · intro st p t hr
    simp [createRootContext, hr]
  · intro st p p' t t' hr hr'
    simp only [createRootContext, hr, hr']
    intro hcontra
    have := RequestId.generated.inj hcontra
    omega

theorem C9_request_id_verbatim_or_fresh_witness :
    ((createRootContext ⟨[], 0⟩ ⟨"hello!", none, none, some "my-token"⟩ "t1").1.request_id
      = .supplied "my-token")
    ∧ ((createRootContext ⟨[], 0⟩ ⟨"hello!", none, none, none⟩ "t1").1.request_id
      = .generated 0)
    ∧ ((createRootContext ⟨[], 0⟩ ⟨"hello!", none, none, none⟩ "t1").1.request_id
      ≠ (createRootContext
          (createRootContext ⟨[], 0⟩ ⟨"hello!", none, none, none⟩ "t1").2
          ⟨"again", none, none, none⟩ "t2").1.request_id) :=
  ⟨C9_request_id_verbatim_or_fresh.1 _ _ _ _ rfl,
   C9_request_id_verbatim_or_fresh.2.1 _ _ _ rfl,
   C9_request_id_verbatim_or_fresh.2.2 _ _ _ _ _ rfl rfl⟩

/-- C6.  Group inheritance law: when a second external call supplies
`from_trace_id` equal to the trace id produced by a first call (and no
explicit group id of its own), its root Context adopts the first call's
group id. -/
theorem C6_group_inheritance (st : MasState) (p1 p2 : Payload) (t1 t2 : String)
    (hg : p2.group_id = none)
    (ht : p2.from_trace_id = some (createRootContext st p1 t1).1.trace_id) :
    (createRootContext (createRootContext st p1 t1).2 p2 t2).1.group_id
      = (createRootContext st p1 t1).1.group_id := by
  have ht1 : p2.from_trace_id = some t1 := ht
  simp [createRootContext, hg, ht1]

theorem C6_group_inheritance_witness :
    (createRootContext
        (createRootContext ⟨[], 0⟩ ⟨"what is AI?", some "group_test_001", none, none⟩ "t1").2
        ⟨"and how does it work?", none, some "t1", none⟩ "t2").1.group_id
      = (createRootContext ⟨[], 0⟩
          ⟨"what is AI?", some "group_test_001", none, none⟩ "t1").1.group_id :=
  C6_group_inheritance ⟨[], 0⟩ ⟨"what is AI?", some "group_test_001", none, none⟩
    ⟨"and how does it work?", none, some "t1", none⟩ "t1" "t2" rfl rfl

/-- C1.  The Plan-Execute-Replan round loop is bounded: with replanning
enabled and `max_replan_rounds = 1`, if the replanner answers every
round with a revised step list the flow stops after round 1 in the
Failed state with the `RoundsExceeded` "max rounds exceeded" error; and
for every configuration with at least one allowed round and every
replanner behaviour, the number of executed rounds never exceeds
`max_replan_rounds`. -/
theorem C1_replan_loop_bounded :
    (∀ (cfg : PlanAndSolveCfg) (planner : String → Option (List String))
        (executor : String → String) (replanner : Nat → String → ReplanDecision)
        (query : String) (steps0 : List String),
      cfg.enable_replanner = true →
      cfg.max_replan_rounds = 1 →
      planPhase cfg planner query = some steps0 →
      (∀ r hist, ∃ l, replanner r hist = .revisedSteps l) →
      planAndSolveRun cfg planner executor replanner query
        = ⟨.failed .RoundsExceeded "max rounds exceeded", 1,
           (execStepsGo executor steps0 ⟨"", "", []⟩).tasks⟩)
    ∧ (∀ (cfg : PlanAndSolveCfg) (planner : String → Option (List String))
        (executor : String → String) (replanner : Nat → String → ReplanDecision)
        (query : String),
      1 ≤ cfg.max_replan_rounds →
      (planAndSolveRun cfg planner executor replanner query).roundsDone
        ≤ cfg.max_replan_rounds) := by
  constructor
  · intro cfg planner executor replanner query steps0 hen hmax hplan hrep
    obtain ⟨l, hl⟩ := hrep 1 (execStepsGo executor steps0 ⟨"", "", []⟩).past
    simp only [planAndSolveRun, hplan, hmax]
    rw [pesRounds]
    simp [hen, hl]
  · intro cfg planner executor replanner query hone
    cases hplan : planPhase cfg planner query with
    | none => simp [planAndSolveRun, hplan]
    | some steps =>
      have h := pesRounds_roundsDone_le executor replanner cfg.enable_replanner
        (cfg.max_replan_rounds - 1) 1 steps ⟨"", "", []⟩
      simp only [planAndSolveRun, hplan]
      omega

theorem C1_replan_loop_bounded_witness :
    (planAndSolveRun ⟨1, "planner_agent", some ["step one"], true, "executor_agent", "default_llm"⟩
        (fun _ => none) (fun _ => "step output") (fun _ _ => .revisedSteps ["again"]) "q"
      = ⟨.failed .RoundsExceeded "max rounds exceeded", 1,
         (execStepsGo (fun _ => "step output") ["step one"] ⟨"", "", []⟩).tasks⟩)
    ∧ ((planAndSolveRun ⟨1, "planner_agent", some ["step one"], true, "executor_agent", "default_llm"⟩
        (fun _ => none) (fun _ => "step output") (fun _ _ => .revisedSteps ["again"]) "q").roundsDone
      ≤ 1) :=
  ⟨C1_replan_loop_bounded.1 _ _ _ _ _ _ rfl rfl rfl (fun _ _ => ⟨["again"], rfl⟩),
   C1_replan_loop_bounded.2 _ _ _ _ _ (Nat.le_refl 1)⟩

/-- C8.  With replanning disabled and the fixed pre-plan
`[s1, s2, s3]`, the flow issues exactly the three executor tasks
`t1, t2, t3` in plan order — each later task built from the earlier
results, so step N+1 is only formed after step N's response — ends Done
after one round with the last executor output as final answer, and every
task text contains the history entries of all previously completed
steps, the current step, and the explicit only-this-step instruction. -/
theorem C8_fixed_three_step_plan (executor : String → String)
    (planner : String → Option (List String))
    (replanner : Nat → String → ReplanDecision) (query s1 s2 s3 : String) :
    let t1 := taskFormat "" s1
    let r1 := executor t1
    let t2 := taskFormat (pastEntry s1 r1) s2
    let r2 := executor t2
    let t3 := taskFormat (pastEntry s1 r1 ++ pastEntry s2 r2) s3
    let r3 := executor t3
    (planAndSolveRun
        { pre_plan_steps := some [s1, s2, s3], enable_replanner := false }
        planner executor replanner query
      = ⟨.done r3, 1, [t1, t2, t3]⟩)
    ∧ containsSub (pyChars (pastEntry s1 r1)) (pyChars t2) = true
    ∧ containsSub (pyChars (pastEntry s1 r1)) (pyChars t3) = true
    ∧ containsSub (pyChars (pastEntry s2 r2)) (pyChars t3) = true
    ∧ containsSub (pyChars s1) (pyChars t1) = true
    ∧ containsSub (pyChars s2) (pyChars t2) = true
    ∧ containsSub (pyChars s3) (pyChars t3) = true
    ∧ containsSub (pyChars onlyCurrentStepInstr) (pyChars t1) = true
    ∧ containsSub (pyChars onlyCurrentStepInstr) (pyChars t2) = true
    ∧ containsSub (pyChars onlyCurrentStepInstr) (pyChars t3) = true := by
  intro t1 r1 t2 r2 t3 r3
  refine ⟨?_, ?_, ?_, ?_, ?_, ?_, ?_, ?_, ?_, ?_⟩
  · simp only [planAndSolveRun, planPhase]
    rw [pesRounds]
    simp [execStepsGo]
  all_goals
    simp only [t3, t2, t1, taskFormat, pyChars_append, List.append_assoc]
  · exact containsSub_append_left _ (containsSub_self_append _ _)
  · exact containsSub_append_left _ (containsSub_self_append _ _)
  · exact containsSub_append_left _ (containsSub_append_left _
      (containsSub_self_append _ _))
  · exact containsSub_append_left _ (containsSub_append_left _
      (containsSub_append_left _ (containsSub_self_append _ _)))
  · exact containsSub_append_left _ (containsSub_append_left _
      (containsSub_append_left _ (containsSub_self_append _ _)))
  · exact containsSub_append_left _ (containsSub_append_left _
      (containsSub_append_left _ (containsSub_append_left _
        (containsSub_self_append _ _))))
  · exact containsSub_append_left _ (containsSub_append_left _
      (containsSub_append_left _ (containsSub_append_left _
        (containsSub_append_left _ (containsSub_self _)))))
  · exact containsSub_append_left _ (containsSub_append_left _
      (containsSub_append_left _ (containsSub_append_left _
        (containsSub_append_left _ (containsSub_self _)))))
  · exact containsSub_append_left _ (containsSub_append_left _
      (containsSub_append_left _ (containsSub_append_left _
        (containsSub_append_left _ (containsSub_append_left _
          (containsSub_self _))))))

theorem gather_foldl_slots_length (call : String → Store → OxyResponse)
    (names : List String) (args : Store) :
    ∀ (sched : List Nat) (st : GatherRun),
      ((sched.foldl (gatherStep call names args) st).slots).length
        = st.slots.length := by
  intro sched
  induction sched with
  | nil => intro st; rfl
  | cons j rest ih =>
    intro st
    rw [List.foldl_cons, ih]
    simp [gatherStep]

theorem gather_foldl_pres (call : String → Store → OxyResponse)
    (names : List String) (args : Store) :
    ∀ (sched : List Nat) (st : GatherRun) (i : Nat),
      st.slots[i]? = some (some (branchCall call names args i)) →
      ((sched.foldl (gatherStep call names args) st).slots)[i]?
        = some (some (branchCall call names args i)) := by
  intro sched
  induction sched with
  | nil => intro st i h; exact h
  | cons j rest ih =>
    intro st i h
    rw [List.foldl_cons]
    apply ih
    by_cases hji : j = i
    · subst hji
      obtain ⟨hlt, _⟩ := List.getElem?_eq_some_iff.1 h
      simp [gatherStep, List.getElem?_set_self hlt]
    · simpa [gatherStep, List.getElem?_set_ne hji] using h

theorem gather_foldl_hit (call : String → Store → OxyResponse)
    (names : List String) (args : Store) :
    ∀ (sched : List Nat) (st : GatherRun) (i : Nat),
      i ∈ sched → i < st.slots.length →
      ((sched.foldl (gatherStep call names args) st).slots)[i]?
        = some (some (branchCall call names args i)) := by
  intro sched
  induction sched with
  | nil => intro st i h; simp at h
  | cons j rest ih =>
    intro st i hmem hlt
    rw [List.foldl_cons]
    by_cases hji : j = i
    · subst hji
      apply gather_foldl_pres
      simp [gatherStep, List.getElem?_set_self hlt]
    · have hmem' : i ∈ rest := by
        rcases List.mem_cons.1 hmem with h | h
        · exact absurd h.symm hji
        · exact h
      apply ih _ _ hmem'
      simp [gatherStep]
      omega

theorem gather_foldl_miss (call : String → Store → OxyResponse)
    (names : List String) (args : Store) :
    ∀ (sched : List Nat) (st : GatherRun) (i : Nat),
      i ∉ sched →
      ((sched.foldl (gatherStep call names args) st).slots)[i]?
        = st.slots[i]? := by
  intro sched
  induction sched with
  | nil => intro st i _; rfl
  | cons j rest ih =>
    intro st i hnot
    have hji : j ≠ i := fun h => hnot (h ▸ List.mem_cons_self j rest)
    have hrest : i ∉ rest := fun h => hnot (List.mem_cons_of_mem j h)
    rw [List.foldl_cons, ih _ _ hrest]
    simp [gatherStep, List.getElem?_set_ne hji]

theorem gather_foldl_log (call : String → Store → OxyResponse)
    (names : List String) (args : Store) :
    ∀ (sched : List Nat) (st : GatherRun),
      (sched.foldl (gatherStep call names args) st).log
        = st.log ++ sched.map (fun i => (names.getD i "", args)) := by
  intro sched
  induction sched with
  | nil => intro st; simp
  | cons j rest ih =>
    intro st
    rw [List.foldl_cons, ih]
    simp [gatherStep]

theorem runGather_log (call : String → Store → OxyResponse)
    (names : List String) (args : Store) (sched : List Nat) :
    (runGather call names args sched).log
      = sched.map (fun i => (names.getD i "", args)) := by
  have h := gather_foldl_log call names args sched
    ⟨[], List.replicate names.length none⟩
  simpa [runGather] using h

theorem runGather_slots_complete (call : String → Store → OxyResponse)
    (names : List String) (args : Store) (sched : List Nat)
    (hperm : List.Perm sched (List.range names.length)) :
    (runGather call names args sched).slots
      = (List.range names.length).map
          (fun i => some (branchCall call names args i)) := by
  apply List.ext_getElem?
  intro i
  by_cases hi : i < names.length
  · have hmem : i ∈ sched := hperm.mem_iff.2 (List.mem_range.2 hi)
    have hlt : i < (List.replicate names.length (none : Option OxyResponse)).length := by
      simpa using hi
    have h := gather_foldl_hit call names args sched
      ⟨[], List.replicate names.length none⟩ i hmem hlt
    rw [runGather]
    rw [h, List.getElem?_map, List.getElem?_range hi]
    rfl
  · have hlen : (runGather call names args sched).slots.length = names.length := by
      have := gather_foldl_slots_length call names args sched
        ⟨[], List.replicate names.length none⟩
      simpa [runGather] using this
    rw [List.getElem?_eq_none (by omega : (runGather call names args sched).slots.length ≤ i)]
    rw [List.getElem?_eq_none (by simpa using Nat.le_of_not_lt hi)]

theorem collectAll_map_some (l : List OxyResponse) :
    collectAll (l.map some) = some l := by
  induction l with
  | nil => rfl
  | cons x rest ih => simp [collectAll, ih]

theorem collectAll_of_none :
    ∀ (l : List (Option OxyResponse)) (i : Nat), l[i]? = some none →
      collectAll l = none := by
  intro l
  induction l with
  | nil => intro i h; simp at h
  | cons x rest ih =>
    intro i h
    cases i with
    | zero =>
      simp at h
      subst h
      rfl
    | succ n =>
      have hres := ih n (by simpa using h)
      cases x with
      | none => rfl
      | some r => simp [collectAll, hres]

theorem map_getD_range (l : List String) :
    (List.range l.length).map (fun i => l.getD i "") = l := by
  induction l with
  | nil => rfl
  | cons x xs ih =>
    have ih2 : List.map (fun i => xs[i]?.getD "") (List.range xs.length) = xs := by
      simpa [List.getD_eq_getElem?_getD] using ih
    simp [List.length_cons, List.range_succ_eq_map, List.map_map,
      Function.comp_def, Nat.succ_eq_add_one, List.getElem?_cons_succ, ih2]

theorem parallelFlow_complete_eq (call : String → Store → OxyResponse)
    (names : List String) (args : Store) (sched : List Nat)
    (hperm : List.Perm sched (List.range names.length)) :
    parallelFlowExecute call names args sched
      = some ⟨.COMPLETED, none,
          aggHeader ++ joinSep "\n"
            (names.map (fun nm => (call nm args).output))⟩ := by
  have hslots := runGather_slots_complete call names args sched hperm
  have hms : (List.range names.length).map
      (fun i => some (branchCall call names args i))
      = ((List.range names.length).map (branchCall call names args)).map some := by
    rw [List.map_map]; rfl
  have hcollect : collectAll (runGather call names args sched).slots
      = some ((List.range names.length).map (branchCall call names args)) := by
    rw [hslots, hms]
    exact collectAll_map_some _
  have hout : ((List.range names.length).map (branchCall call names args)).map
      OxyResponse.output = names.map (fun nm => (call nm args).output) := by
    rw [List.map_map]
    rw [show (OxyResponse.output ∘ branchCall call names args)
        = (fun nm => (call nm args).output) ∘ (fun i => names.getD i "") from rfl]
    rw [← List.map_map, map_getD_range]
  simp only [parallelFlowExecute, hcollect, hout]

/-- C4.  A fan-out over the N-name permitted-callee list, under every
complete schedule of the gather: exactly N nested calls are issued, all
with the incoming arguments; the response exists only when every branch
has finished (an incomplete schedule yields no response — the join
barrier); and the aggregate is Completed with the explanation line
followed by each branch's output exactly once, in declaration order of
the callee list. -/
theorem C4_concurrent_fanout (call : String → Store → OxyResponse)
    (names : List String) (args : Store) :
    (∀ sched : List Nat, List.Perm sched (List.range names.length) →
      parallelFlowExecute call names args sched
        = some ⟨.COMPLETED, none,
            aggHeader ++ joinSep "\n"
              (names.map (fun nm => (call nm args).output))⟩
      ∧ (runGather call names args sched).log.length = names.length
      ∧ (∀ e ∈ (runGather call names args sched).log, e.2 = args)
      ∧ List.Perm ((runGather call names args sched).log.map Prod.fst) names)
    ∧ (∀ sched : List Nat, (∃ i, i < names.length ∧ i ∉ sched) →
        parallelFlowExecute call names args sched = none) := by
  constructor
  · intro sched hperm
    refine ⟨parallelFlow_complete_eq call names args sched hperm, ?_, ?_, ?_⟩
    · rw [runGather_log]
      simp [hperm.length_eq]
    · intro e he
      rw [runGather_log] at he
      obtain ⟨i, _, hi⟩ := List.mem_map.1 he
      rw [← hi]
    · rw [runGather_log, List.map_map]
      have h1 : List.Perm (sched.map (fun i => names.getD i ""))
          ((List.range names.length).map (fun i => names.getD i "")) :=
        hperm.map _
      rw [map_getD_range] at h1
      exact h1
  · rintro sched ⟨i, hi, hnot⟩
    have hmiss := gather_foldl_miss call names args sched
      ⟨[], List.replicate names.length none⟩ i hnot
    have hnone : (runGather call names args sched).slots[i]? = some none := by
      rw [runGather, hmiss]
      simp [hi]
    have hc := collectAll_of_none _ i hnone
    simp [parallelFlowExecute, hc]

theorem C4_concurrent_fanout_witness :
    (parallelFlowExecute
        (fun nm _ => ⟨.COMPLETED, none, "out-" ++ nm⟩)
        ["alpha", "beta"] [("query", "q")] [1, 0]
      = some ⟨.COMPLETED, none,
          aggHeader ++ joinSep "\n"
            ((["alpha", "beta"] : List String).map
              (fun nm => ((fun nm _ => (⟨.COMPLETED, none, "out-" ++ nm⟩ : OxyResponse))
                nm [("query", "q")]).output))⟩)
    ∧ (parallelFlowExecute
        (fun nm _ => ⟨.COMPLETED, none, "out-" ++ nm⟩)
        ["alpha", "beta"] [("query", "q")] [0]
      = none) :=
  ⟨((C4_concurrent_fanout
      (fun nm _ => ⟨.COMPLETED, none, "out-" ++ nm⟩)
      ["alpha", "beta"] [("query", "q")]).1 [1, 0] (by decide)).1,
   (C4_concurrent_fanout
      (fun nm _ => ⟨.COMPLETED, none, "out-" ++ nm⟩)
      ["alpha", "beta"] [("query", "q")]).2 [0]
     ⟨1, by decide, by decide⟩⟩

/-- C5.  If some branch of the fan-out ends in an error (a Failed
response whose output is the error text), no sibling is cancelled:
under every complete schedule all N branches are still called, the flow
still returns the Completed aggregate (the lenient default), and the
failing branch's contribution inside the joined outputs is exactly its
error text. -/
theorem C5_branch_failure_lenient (call : String → Store → OxyResponse)
    (names : List String) (args : Store) (j : Nat) (errText : String)
    (hj : j < names.length)
    (_hstate : (call (names.getD j "") args).state = .FAILED)
    (houtput : (call (names.getD j "") args).output = errText) :
    ∀ sched : List Nat, List.Perm sched (List.range names.length) →
      parallelFlowExecute call names args sched
        = some ⟨.COMPLETED, none,
            aggHeader ++ joinSep "\n"
              (names.map (fun nm => (call nm args).output))⟩
      ∧ (names.map (fun nm => (call nm args).output))[j]? = some errText
      ∧ (runGather call names args sched).log.length = names.length
      ∧ List.Perm ((runGather call names args sched).log.map Prod.fst) names := by
  intro sched hperm
  refine ⟨parallelFlow_complete_eq call names args sched hperm, ?_, ?_, ?_⟩
  · have hgetd : names.getD j "" = names[j] := by
      simp [List.getD_eq_getElem?_getD, List.getElem?_eq_getElem hj]
    rw [List.getElem?_map, List.getElem?_eq_getElem hj]
    rw [hgetd] at houtput
    simp [houtput]
  · rw [runGather_log]
    simp [hperm.length_eq]
  · rw [runGather_log, List.map_map]
    have h1 : List.Perm (sched.map (fun i => names.getD i ""))
        ((List.range names.length).map (fun i => names.getD i "")) :=
      hperm.map _
    rw [map_getD_range] at h1
    exact h1

theorem C5_branch_failure_lenient_witness :
    parallelFlowExecute
        (fun nm _ => if nm == "bad_tool"
          then ⟨.FAILED, some (.NestedFailure "RuntimeError" "branch failed"), "branch failed"⟩
          else ⟨.COMPLETED, none, "fine"⟩)
        ["good_tool", "bad_tool"] [("query", "q")] [1, 0]
      = some ⟨.COMPLETED, none,
          aggHeader ++ joinSep "\n"
            ((["good_tool", "bad_tool"] : List String).map
              (fun nm => ((fun nm _ => if nm == "bad_tool"
                then (⟨.FAILED, some (.NestedFailure "RuntimeError" "branch failed"), "branch failed"⟩ : OxyResponse)
                else ⟨.COMPLETED, none, "fine"⟩)
                nm [("query", "q")]).output))⟩
    ∧ ((["good_tool", "bad_tool"] : List String).map
        (fun nm => ((fun nm _ => if nm == "bad_tool"
          then (⟨.FAILED, some (.NestedFailure "RuntimeError" "branch failed"), "branch failed"⟩ : OxyResponse)
          else ⟨.COMPLETED, none, "fine"⟩)
          nm [("query", "q")]).output))[1]? = some "branch failed" :=
  ⟨((C5_branch_failure_lenient
      (fun nm _ => if nm == "bad_tool"
        then ⟨.FAILED, some (.NestedFailure "RuntimeError" "branch failed"), "branch failed"⟩
        else ⟨.COMPLETED, none, "fine"⟩)
      ["good_tool", "bad_tool"] [("query", "q")] 1 "branch failed"
      (by decide) rfl rfl) [1, 0] (by decide)).1,
   ((C5_branch_failure_lenient
      (fun nm _ => if nm == "bad_tool"
        then ⟨.FAILED, some (.NestedFailure "RuntimeError" "branch failed"), "branch failed"⟩
        else ⟨.COMPLETED, none, "fine"⟩)
      ["good_tool", "bad_tool"] [("query", "q")] 1 "branch failed"
      (by decide) rfl rfl) [1, 0] (by decide)).2.1⟩

/-- C10 counterexample.  The claim says the ANSWER-state output is the
original text; but on the input "a</think>b" with a decode that fails
(and with the token condition false, so the state is ANSWER), the source
reassigns `ori_response` to the trimmed text after the last marker
before returning it, so the output is "b", not the original input
"a</think>b". -/
theorem C10_parser_counterexample :
    (func_parse_llm_response (fun _ => .jsonDecodeError)
        (pyChars "a</think>b")).state = .ANSWER
    ∧ (func_parse_llm_response (fun _ => .jsonDecodeError)
        (pyChars "a</think>b")).output ≠ .text (pyChars "a</think>b")
    ∧ func_parse_llm_response (fun _ => .jsonDecodeError) (pyChars "a</think>b")
      = ⟨.ANSWER, .text (pyChars "b"), pyChars "b"⟩ := by
  refine ⟨?_, ?_, ?_⟩ <;> decide

/-- C10 (amended).  For every decode behaviour and input string the
parser returns an `LLMResponse` (it is a total function); the parsed
text is the trimmed text after the last `</think>` marker when the
marker is present, else the input; if a JSON object with key
`tool_name` is decoded from the parsed text the state is TOOL_CALL with
that object as output; if an object without that key is decoded the
state is ANSWER; if JSON decoding fails the state is ERROR_PARSE
exactly when the parsed text contains all of "tool_name", "arguments",
"\x7b" and "\x7d", and otherwise the state is ANSWER — in both ANSWER
cases with the parsed text (not necessarily the original input) as
output. -/
theorem C10_parser_characterization (decode : List Char → DecodeOutcome)
    (ori0 : List Char) :
    (∀ obj, decode (postThink ori0) = .ok obj → hasToolName obj = true →
      func_parse_llm_response decode ori0
        = ⟨.TOOL_CALL, .obj obj, postThink ori0⟩)
    ∧ (∀ obj, decode (postThink ori0) = .ok obj → hasToolName obj = false →
      func_parse_llm_response decode ori0
        = ⟨.ANSWER, .text (postThink ori0), postThink ori0⟩)
    ∧ (decode (postThink ori0) = .jsonDecodeError →
      ((func_parse_llm_response decode ori0).state = .ERROR_PARSE
        ↔ parseTokens.all (fun tk => containsSub tk (postThink ori0)) = true))
    ∧ (decode (postThink ori0) = .jsonDecodeError →
      parseTokens.all (fun tk => containsSub tk (postThink ori0)) = false →
      func_parse_llm_response decode ori0
        = ⟨.ANSWER, .text (postThink ori0), postThink ori0⟩) := by
  refine ⟨?_, ?_, ?_, ?_⟩
  · intro obj hdec htool
    simp [func_parse_llm_response, hdec, htool]
  · intro obj hdec htool
    simp [func_parse_llm_response, hdec, htool]
  · intro hdec
    by_cases hall : parseTokens.all (fun tk => containsSub tk (postThink ori0)) = true
    · simp [func_parse_llm_response, hdec, hall]
    · have hall2 : parseTokens.all (fun tk => containsSub tk (postThink ori0)) = false :=
        Bool.eq_false_iff.2 hall
      simp [func_parse_llm_response, hdec, hall2]
  · intro hdec hall
    simp [func_parse_llm_response, hdec, hall]

theorem C10_parser_characterization_witness :
    func_parse_llm_response
        (fun _ => .ok [("tool_name", "file_tools")])
        (pyChars "x</think> \x7b\"tool_name\": \"file_tools\"\x7d")
      = ⟨.TOOL_CALL, .obj [("tool_name", "file_tools")],
         postThink (pyChars "x</think> \x7b\"tool_name\": \"file_tools\"\x7d")⟩ :=
  (C10_parser_characterization
    (fun _ => .ok [("tool_name", "file_tools")])
    (pyChars "x</think> \x7b\"tool_name\": \"file_tools\"\x7d")).1
    [("tool_name", "file_tools")] rfl rfl

end OxyGent
